import Mathlib

/-!
Verification of the rate-limiting core of the zzz-secure package.

The definitions below are a shallow embedding of the TypeScript source:

* `MemTB`    — `MemoryTokenBucketStore` (src/token-bucket/memory.ts)
* `Redis`    — the Lua scripts of the atomic networked store
               (src/token-bucket/scripts.ts, src/token-bucket/cache-memory.ts)
* `MemFW`    — `MemoryFixedWindowStore` (src/fixed-window/memory-fw.ts)
* `MW`       — the admission decision made by the Express middlewares
               (src/token-bucket/lib.ts, src/fixed-window/lib-fixed-window.ts,
                src/leaky-bucket/lib-lb.ts)
* `LB`       — the standalone `LeakyBucket` queue class.

Timestamps are integers (milliseconds, as returned by `Date.now()`); token
counts are integers (they start integral and every update adds or subtracts
an integral amount); rates and the `refillInterval` are rationals.
-/

namespace MemTB

/-- One entry of `MemoryTokenBucketStore.clientMap`: the remaining tokens and
the time of the last applied refill. -/
structure Client where
  tokens : ℤ
  lastRefillTime : ℤ
  deriving DecidableEq, Repr

/-- The `clientMap` of a `MemoryTokenBucketStore`. -/
def ClientMap := String → Option Client

/-- The store before any key has been seen. -/
def ClientMap.empty : ClientMap := fun _ => none

/-- Point update of the client map. -/
def ClientMap.set (m : ClientMap) (key : String) (c : Client) : ClientMap :=
  fun k => if k = key then some c else m k

/-- Deletion from the client map (`clientMap.delete(key)`). -/
def ClientMap.del (m : ClientMap) (key : String) : ClientMap :=
  fun k => if k = key then none else m k

/-- The value returned by the store operations: `totalHits` and `resetTime`
(`lastRefillTime + refillInterval`, a millisecond timestamp). -/
structure Info where
  totalHits : ℤ
  resetTime : ℚ
  deriving DecidableEq, Repr

/-- The private `getClient` method: look the key up, creating a fresh bucket
holding `bucketCapacity` tokens stamped with the current time when the key is
unknown.  Returns the client together with the (possibly extended) map. -/
def getClient (cap : ℤ) (m : ClientMap) (key : String) (now : ℤ) :
    Client × ClientMap :=
  match m key with
  | some c => (c, m)
  | none =>
      let c : Client := ⟨cap, now⟩
      (c, m.set key c)

/-- The refill amount `Math.floor(elapsedTime / 1000 * tokensPerInterval)`
where `elapsedTime = now - lastRefillTime`. -/
def tokensToAdd (rate : ℚ) (c : Client) (now : ℤ) : ℤ :=
  ⌊((now - c.lastRefillTime : ℤ) : ℚ) / 1000 * rate⌋

/-- The private `refillTokens` method: tokens (capped at the capacity) and
`lastRefillTime` are updated only when `tokensToAdd > 0`. -/
def refillTokens (cap : ℤ) (rate : ℚ) (c : Client) (now : ℤ) : Client :=
  if 0 < tokensToAdd rate c now
  then ⟨min (c.tokens + tokensToAdd rate c now) cap, now⟩ else c

/-- `MemoryTokenBucketStore.increment`: refill, then consume one token if any
token is available; the post-consumption count is reported as `totalHits`. -/
def increment (cap : ℤ) (rate : ℚ) (itv : ℚ) (m : ClientMap) (key : String)
    (now : ℤ) : Info × ClientMap :=
  let r := getClient cap m key now
  let c := refillTokens cap rate r.1 now
  let c := if 0 < c.tokens then { c with tokens := c.tokens - 1 } else c
  (⟨c.tokens, (c.lastRefillTime : ℚ) + itv⟩, r.2.set key c)

/-- `MemoryTokenBucketStore.get`: creates the bucket for unknown keys,
applies the pending refill and reports the refilled state. -/
def get (cap : ℤ) (rate : ℚ) (itv : ℚ) (m : ClientMap) (key : String)
    (now : ℤ) : Info × ClientMap :=
  let r := getClient cap m key now
  let c := refillTokens cap rate r.1 now
  (⟨c.tokens, (c.lastRefillTime : ℚ) + itv⟩, r.2.set key c)

/-- `MemoryTokenBucketStore.decrement`: add one token back, bounded by the
bucket capacity. -/
def decrement (cap : ℤ) (m : ClientMap) (key : String) (now : ℤ) : ClientMap :=
  let r := getClient cap m key now
  let c := if r.1.tokens < cap then { r.1 with tokens := r.1.tokens + 1 }
           else r.1
  r.2.set key c

/-- `MemoryTokenBucketStore.resetKey`: drop the key from the map. -/
def resetKey (m : ClientMap) (key : String) : ClientMap := m.del key

/-- `MemoryTokenBucketStore.resetAll`: clear the map. -/
def resetAll (_m : ClientMap) : ClientMap := ClientMap.empty

/-- A sequence of `increment` calls on one key at the given times; returns
the per-call results and the final map. -/
def incrementN (cap : ℤ) (rate itv : ℚ) (m : ClientMap) (key : String) :
    List ℤ → List Info × ClientMap
  | [] => ([], m)
  | now :: rest =>
      let r := increment cap rate itv m key now
      let r2 := incrementN cap rate itv r.2 key rest
      (r.1 :: r2.1, r2.2)

/-- One store operation on the in-memory token-bucket store, with the wall
clock time at which it is issued. -/
inductive Op where
  | get (key : String) (now : ℤ)
  | increment (key : String) (now : ℤ)
  | decrement (key : String) (now : ℤ)
  | resetKey (key : String)
  | resetAll

/-- Apply one store operation to the client map. -/
def stepOp (cap : ℤ) (rate itv : ℚ) (m : ClientMap) : Op → ClientMap
  | .get key now => (get cap rate itv m key now).2
  | .increment key now => (increment cap rate itv m key now).2
  | .decrement key now => decrement cap m key now
  | .resetKey key => resetKey m key
  | .resetAll => resetAll m

/-- Apply a sequence of store operations. -/
def runOps (cap : ℤ) (rate itv : ℚ) (m : ClientMap) : List Op → ClientMap
  | [] => m
  | op :: rest => runOps cap rate itv (stepOp cap rate itv m op) rest

/-- The level invariant: every stored bucket holds between 0 and
`bucketCapacity` tokens. -/
def Inv (cap : ℤ) (m : ClientMap) : Prop :=
  ∀ k c, m k = some c → 0 ≤ c.tokens ∧ c.tokens ≤ cap

end MemTB

namespace Redis

/-- The hash stored per key by the networked backend: the two fields
`tokens` and `lastRefillTime`, each possibly absent (the key may not exist,
or `RETURN_TOKEN` may have created only the `tokens` field). -/
structure Hash where
  tokens : Option ℤ
  lastRefillTime : Option ℤ
  deriving DecidableEq, Repr

/-- The hash of a key that has never been written. -/
def Hash.empty : Hash := ⟨none, none⟩

/-- The triple returned by the `CONSUME_TOKEN` script:
`[canConsume, newTokens, nextResetTime]`. -/
structure ConsumeReply where
  canConsume : Bool
  newTokens : ℤ
  nextResetTime : ℚ
  deriving DecidableEq, Repr

/-- The `CONSUME_TOKEN` Lua script: read the bucket, initialize a missing
bucket at full capacity, add `floor(elapsed / 1000 * tokensPerInterval)`
tokens capped at the capacity, consume one token when any is available, and
write back both fields — `lastRefillTime` is unconditionally set to `now`. -/
def consumeToken (cap : ℤ) (rate : ℚ) (itv : ℚ) (h : Hash) (now : ℤ) :
    Hash × ConsumeReply :=
  let st :=
    match h.tokens, h.lastRefillTime with
    | some t, some l => (t, l)
    | _, _ => (cap, now)
  let elapsedTime : ℤ := max 0 (now - st.2)
  let tokensToAdd : ℤ := ⌊(elapsedTime : ℚ) / 1000 * rate⌋
  let newTokens : ℤ := min (st.1 + tokensToAdd) cap
  let canConsume := 0 < newTokens
  let newTokens := if canConsume then newTokens - 1 else newTokens
  (⟨some newTokens, some now⟩, ⟨canConsume, newTokens, (now : ℚ) + ⌈itv⌉⟩)

/-- The `RETURN_TOKEN` Lua script: read the `tokens` field (defaulting a
missing field to 0), add one token bounded by the capacity, and write only
the `tokens` field back. -/
def returnToken (cap : ℤ) (h : Hash) : Hash :=
  let currentTokens : ℤ := h.tokens.getD 0
  { h with tokens := some (min (currentTokens + 1) cap) }

/-- The `RESET_CLIENT` Lua script: force the bucket to full capacity with
`lastRefillTime = now`. -/
def resetClient (cap : ℤ) (h : Hash) (now : ℤ) : Hash :=
  let _ := h
  (⟨some cap, some now⟩ : Hash)

/-- `RedisTokenBucketStore.get`: a plain `HGETALL`; an entirely absent key
yields `undefined`, otherwise the raw fields are parsed with defaults
(`tokens` defaults to 0, `lastRefillTime` to `now`) and no refill arithmetic
is applied. -/
def get (itv : ℚ) (h : Hash) (now : ℤ) : Option MemTB.Info :=
  if h = Hash.empty then none
  else
    some ⟨h.tokens.getD 0, ((h.lastRefillTime.getD now : ℤ) : ℚ) + itv⟩

/-- One scripted operation on the networked token-bucket backend, with the
`now` argument passed by the client where the script takes one. -/
inductive Op where
  | consume (now : ℤ)
  | returnTok
  | reset (now : ℤ)

/-- Apply one script to the stored hash of a key. -/
def stepOp (cap : ℤ) (rate itv : ℚ) (h : Hash) : Op → Hash
  | .consume now => (consumeToken cap rate itv h now).1
  | .returnTok => returnToken cap h
  | .reset now => resetClient cap h now

/-- Apply a sequence of scripts. -/
def runOps (cap : ℤ) (rate itv : ℚ) (h : Hash) : List Op → Hash
  | [] => h
  | op :: rest => runOps cap rate itv (stepOp cap rate itv h op) rest

/-- The level invariant on the stored hash: when the `tokens` field is
present it holds between 0 and `bucketCapacity` tokens. -/
def Inv (cap : ℤ) (h : Hash) : Prop :=
  ∀ t : ℤ, h.tokens = some t → 0 ≤ t ∧ t ≤ cap

end Redis

namespace MemFW

/-- One entry of `MemoryFixedWindowStore.clients`: the hit count and the
window reset time (milliseconds). -/
structure Client where
  totalHits : ℤ
  resetTime : ℕ
  deriving DecidableEq, Repr

/-- The `clients` map of a `MemoryFixedWindowStore`. -/
def Clients := String → Option Client

/-- The store before any key has been seen. -/
def Clients.empty : Clients := fun _ => none

/-- Point update of the clients map. -/
def Clients.set (m : Clients) (key : String) (c : Client) : Clients :=
  fun k => if k = key then some c else m k

/-- `MemoryFixedWindowStore.increment`: compute the current fixed window
(`windowStart = Math.floor(now / windowMs) * windowMs`), start a fresh entry
whenever the key is unknown or its stored reset time has passed
(`resetTime <= now`), then count the hit. -/
def increment (windowMs : ℕ) (m : Clients) (key : String) (now : ℕ) :
    Client × Clients :=
  let windowStart := now / windowMs * windowMs
  let resetTime := windowStart + windowMs
  let client :=
    match m key with
    | some c => if c.resetTime ≤ now then (⟨0, resetTime⟩ : Client) else c
    | none => (⟨0, resetTime⟩ : Client)
  let client := { client with totalHits := client.totalHits + 1 }
  (client, m.set key client)

/-- `MemoryFixedWindowStore.get`: returns the stored record as-is — the
current time is not consulted and no window-expiry arithmetic is applied. -/
def get (m : Clients) (key : String) : Option Client := m key

/-- `MemoryFixedWindowStore.decrement`: subtract one hit when a record
exists and its count is positive. -/
def decrement (m : Clients) (key : String) : Clients :=
  match m key with
  | some c =>
      if 0 < c.totalHits then m.set key { c with totalHits := c.totalHits - 1 }
      else m
  | none => m

/-- `MemoryFixedWindowStore.resetKey`: drop the key. -/
def resetKey (m : Clients) (key : String) : Clients :=
  fun k => if k = key then none else m k

/-- A sequence of `increment` calls on one key at the given times; returns
the per-call results and the final map. -/
def incrementN (windowMs : ℕ) (m : Clients) (key : String) :
    List ℕ → List Client × Clients
  | [] => ([], m)
  | now :: rest =>
      let r := increment windowMs m key now
      let r2 := incrementN windowMs r.2 key rest
      (r.1 :: r2.1, r2.2)

end MemFW

namespace MW

/-- The rate-limit info the middlewares attach to the request:
`{ limit, used, remaining: max(limit-used, 0), resetTime }`. -/
structure RLInfo (τ : Type) where
  limit : ℤ
  used : ℤ
  remaining : ℤ
  resetTime : τ
  deriving DecidableEq, Repr

/-- The externally observable outcome of one middleware call. -/
inductive Outcome (ε τ : Type) where
  /-- `passOnStoreError` branch: `next()` is called, no decision recorded. -/
  | failOpen : Outcome ε τ
  /-- the store error is rethrown to the caller (`handleAsyncErrors`
  forwards it to `next(error)`). -/
  | propagate (e : ε) : Outcome ε τ
  /-- the capacity-exceeded branch: the rejection `handler` is invoked. -/
  | reject (info : RLInfo τ) : Outcome ε τ
  /-- `next()` is called with the rate-limit info attached. -/
  | admitted (info : RLInfo τ) : Outcome ε τ
  deriving DecidableEq

/-- Whether the outcome is the admitted-with-decision path (`next()` after a
recorded decision). -/
def Outcome.isAdmitted : Outcome ε τ → Bool
  | .admitted _ => true
  | _ => false

/-- Whether the outcome is the capacity-exceeded rejection path. -/
def Outcome.isReject : Outcome ε τ → Bool
  | .reject _ => true
  | _ => false

/-- The decision logic of the fixed-window middleware
(src/fixed-window/lib-fixed-window.ts): on a store error, fail open or
rethrow according to `passOnStoreError`; otherwise reject exactly when
`totalHits > limit`. -/
def fixedWindow (passOnStoreError : Bool) (limit : ℤ)
    (storeResult : Except ε MemFW.Client) : Outcome ε ℕ :=
  match storeResult with
  | .error e => if passOnStoreError then .failOpen else .propagate e
  | .ok r =>
      let info : RLInfo ℕ :=
        ⟨limit, r.totalHits, max (limit - r.totalHits) 0, r.resetTime⟩
      if limit < r.totalHits then .reject info else .admitted info

/-- The decision logic of the token-bucket middleware
(src/token-bucket/lib.ts): on a store error, fail open or rethrow according
to `passOnStoreError`; otherwise reject exactly when the returned
post-consumption token count `tokensRemaining == 0`. -/
def tokenBucket (passOnStoreError : Bool) (limit : ℤ)
    (storeResult : Except ε MemTB.Info) : Outcome ε ℚ :=
  match storeResult with
  | .error e => if passOnStoreError then .failOpen else .propagate e
  | .ok r =>
      let info : RLInfo ℚ :=
        ⟨limit, r.totalHits, max (limit - r.totalHits) 0, r.resetTime⟩
      if r.totalHits = 0 then .reject info else .admitted info

/-- The record the leaky-bucket middleware expects its store `get` to
return. -/
structure LbRecord where
  used : ℤ
  lastUpdated : ℤ
  deriving DecidableEq, Repr

/-- The decision logic of the leaky-bucket middleware
(src/leaky-bucket/lib-lb.ts): on an error from `store.get`, fail open or
rethrow according to `passOnStoreError`; otherwise leak
`Math.floor(elapsedTime * leakRate)` off the level and admit exactly when
the leaked level is below the capacity. -/
def leakyBucket (passOnStoreError : Bool) (capacity : ℤ) (leakRate : ℚ)
    (now : ℤ) (storeResult : Except ε (Option LbRecord)) : Outcome ε ℚ :=
  match storeResult with
  | .error e => if passOnStoreError then .failOpen else .propagate e
  | .ok bucketInfo =>
      let used := (bucketInfo.map LbRecord.used).getD 0
      let lastUpdated := (bucketInfo.map LbRecord.lastUpdated).getD now
      let elapsedTime : ℤ := now - lastUpdated
      let leakedTokens : ℤ := ⌊(elapsedTime : ℚ) * leakRate⌋
      let used := max 0 (used - leakedTokens)
      if used < capacity then
        let used := used + 1
        .admitted ⟨capacity, used, max (capacity - used) 0,
          (now : ℚ) + 1 / leakRate⟩
      else
        .reject ⟨capacity, used, 0, (lastUpdated : ℚ) + 1 / leakRate⟩

end MW

namespace LB

/-- The mutable state of the standalone `LeakyBucket` queue class: the sum
of the queued costs, the configured capacity, the refillable capacity, the
time of the last refill bookkeeping (`null` when the bucket is full), the
FIFO queue of pending costs, and whether a release timer is pending.  The
derived `refillRate` is `capacity / (interval / 1000)`. -/
structure State where
  totalCost : ℚ
  capacity : ℚ
  currentCapacity : ℚ
  lastRefill : Option ℚ
  queue : List ℚ
  timerSet : Bool
  refillRate : ℚ
  deriving DecidableEq, Repr

/-- A freshly constructed `LeakyBucket({capacity, interval})`. -/
def State.make (capacity interval : ℚ) : State :=
  ⟨0, capacity, capacity, none, [], false, capacity / (interval / 1000)⟩

/-- The `refill` method: when the bucket is not full and a refill reference
time exists, add `elapsed_seconds * refillRate` capped at the capacity; a
full bucket clears `lastRefill`, otherwise `lastRefill` advances to now. -/
def refill (st : State) (now : ℚ) : State :=
  if st.currentCapacity < st.capacity ∧ st.lastRefill ≠ none then
    let last := st.lastRefill.getD 0
    let elapsed := (now - last) / 1000
    let refillAmount := elapsed * st.refillRate
    let cc := min (st.currentCapacity + refillAmount) st.capacity
    if st.capacity ≤ cc then
      { st with currentCapacity := st.capacity, lastRefill := none }
    else
      { st with currentCapacity := cc, lastRefill := some now }
  else st

/-- The `pay` method: deduct the cost from the current capacity and the
total queued cost, initializing `lastRefill` if unset. -/
def pay (st : State) (cost : ℚ) (now : ℚ) : State :=
  { st with
      currentCapacity := st.currentCapacity - cost
      totalCost := st.totalCost - cost
      lastRefill := if st.lastRefill = none then some now else st.lastRefill }

/-- The `startTimer` method, restricted to a single instant `now`: while no
timer is pending and the queue is nonempty, refill, and either resolve the
head (shift it off, pay its cost, and loop) or — when the current capacity
cannot cover the head — schedule the release timer (which fires strictly
later, hence outside this instant). -/
def startTimer (st : State) (now : ℚ) : State :=
  if st.timerSet then st
  else
    match hq : st.queue with
    | [] => st
    | cost :: rest =>
        let st1 := refill st now
        if cost ≤ st1.currentCapacity then
          startTimer (pay { st1 with queue := rest } cost now) now
        else
          { st1 with timerSet := true }
termination_by st.queue.length
decreasing_by
  simp [pay, hq]

/-- The `throttle(cost)` method with `append = true`: read the max capacity
(which runs `refill` as a side effect), then either throw a `Bucket
overflow` error — when `totalCost + cost > capacity` — or enqueue the cost
and run `startTimer`.  The boolean records whether the overflow error was
thrown. -/
def throttle (st : State) (cost : ℚ) (now : ℚ) : State × Bool :=
  let stR := refill st now
  if stR.capacity < st.totalCost + cost then (stR, true)
  else
    let st1 := { stR with
                   totalCost := stR.totalCost + cost
                   queue := stR.queue ++ [cost] }
    (startTimer st1 now, false)

/-- A sequence of `throttle` calls with the given costs, all issued at the
same instant; returns the final state and, per call, whether it threw. -/
def throttleN (st : State) (costs : List ℚ) (now : ℚ) : State × List Bool :=
  match costs with
  | [] => (st, [])
  | cost :: rest =>
      let r := throttle st cost now
      let r2 := throttleN r.1 rest now
      (r2.1, r.2 :: r2.2)

end LB

namespace MemTB

/-- Refilling at the very moment of the last refill adds no token and leaves
the client untouched (zero elapsed time). -/
theorem refillTokens_self (cap : ℤ) (rate : ℚ) (c : Client) :
    refillTokens cap rate c c.lastRefillTime = c := by
  unfold refillTokens tokensToAdd
  norm_num

/-- Variant of `refillTokens_self` with the client given by its fields. -/
theorem refillTokens_now (cap : ℤ) (rate : ℚ) (t now : ℤ) :
    refillTokens cap rate ⟨t, now⟩ now = ⟨t, now⟩ :=
  refillTokens_self cap rate ⟨t, now⟩

theorem Inv.emptyMap (cap : ℤ) : Inv cap ClientMap.empty := by
  intro k c h
  simp [ClientMap.empty] at h

theorem Inv.set {cap : ℤ} {m : ClientMap} {key : String} {c : Client}
    (h : Inv cap m) (hc0 : 0 ≤ c.tokens) (hc1 : c.tokens ≤ cap) :
    Inv cap (m.set key c) := by
  intro k c' hk
  unfold ClientMap.set at hk
  split at hk
  · injection hk with hk
    subst hk
    exact ⟨hc0, hc1⟩
  · exact h k c' hk

theorem Inv.del {cap : ℤ} {m : ClientMap} {key : String} (h : Inv cap m) :
    Inv cap (m.del key) := by
  intro k c' hk
  unfold ClientMap.del at hk
  split at hk
  · exact Option.noConfusion hk
  · exact h k c' hk

theorem getClient_bounds (cap : ℤ) (m : ClientMap) (key : String) (now : ℤ)
    (hcap : 0 ≤ cap) (h : Inv cap m) :
    (0 ≤ (getClient cap m key now).1.tokens
      ∧ (getClient cap m key now).1.tokens ≤ cap)
    ∧ Inv cap (getClient cap m key now).2 := by
  unfold getClient
  cases hm : m key with
  | some c => exact ⟨h key c hm, h⟩
  | none => exact ⟨⟨hcap, le_refl cap⟩, h.set hcap (le_refl cap)⟩

theorem refillTokens_bounds (cap : ℤ) (rate : ℚ) (c : Client) (now : ℤ)
    (hc0 : 0 ≤ c.tokens) (hc1 : c.tokens ≤ cap) :
    0 ≤ (refillTokens cap rate c now).tokens
      ∧ (refillTokens cap rate c now).tokens ≤ cap := by
  unfold refillTokens
  split
  · simp only
    omega
  · exact ⟨hc0, hc1⟩

theorem Inv.stepMap {cap : ℤ} {rate itv : ℚ} {m : ClientMap} (op : Op)
    (hcap : 0 ≤ cap) (h : Inv cap m) :
    Inv cap (stepOp cap rate itv m op) := by
  cases op with
  | get key now =>
      obtain ⟨⟨h0, h1⟩, h2⟩ := getClient_bounds cap m key now hcap h
      obtain ⟨h3, h4⟩ :=
        refillTokens_bounds cap rate (getClient cap m key now).1 now h0 h1
      exact h2.set h3 h4
  | increment key now =>
      obtain ⟨⟨h0, h1⟩, h2⟩ := getClient_bounds cap m key now hcap h
      obtain ⟨h3, h4⟩ :=
        refillTokens_bounds cap rate (getClient cap m key now).1 now h0 h1
      refine h2.set ?_ ?_ <;>
        · split <;> (try dsimp only) <;> omega
  | decrement key now =>
      obtain ⟨⟨h0, h1⟩, h2⟩ := getClient_bounds cap m key now hcap h
      refine h2.set ?_ ?_ <;>
        · split <;> (try dsimp only) <;> omega
  | resetKey key => exact h.del
  | resetAll => exact Inv.emptyMap cap

theorem Inv.runMap {cap : ℤ} {rate itv : ℚ} {m : ClientMap} (ops : List Op)
    (hcap : 0 ≤ cap) (h : Inv cap m) :
    Inv cap (runOps cap rate itv m ops) := by
  induction ops generalizing m with
  | nil => exact h
  | cons op rest ih => exact ih (h.stepMap op hcap)

end MemTB

namespace Redis

theorem Inv.emptyHash (cap : ℤ) : Inv cap Hash.empty := by
  intro t ht
  simp [Hash.empty] at ht

theorem Inv.stepHash {cap : ℤ} {rate itv : ℚ} {h : Hash} (op : Op)
    (hcap : 0 ≤ cap) (hrate : 0 ≤ rate) (hh : Inv cap h) :
    Inv cap (stepOp cap rate itv h op) := by
  cases op with
  | consume now =>
      intro t ht
      obtain ⟨tok, last⟩ := h
      simp only [Redis.stepOp, consumeToken] at ht
      have hfloor : ∀ e : ℤ, 0 ≤ e → (0 : ℤ) ≤ ⌊(e : ℚ) / 1000 * rate⌋ := by
        intro e he
        refine Int.floor_nonneg.mpr (mul_nonneg (div_nonneg ?_ (by norm_num)) hrate)
        exact_mod_cast he
      cases tok with
      | some t0 =>
          cases last with
          | some l0 =>
              obtain ⟨ht0, ht1⟩ := hh t0 rfl
              simp only [Option.some.injEq] at ht
              have := hfloor (max 0 (now - l0)) (le_max_left 0 (now - l0))
              split at ht <;> omega
          | none =>
              simp only [Option.some.injEq] at ht
              have := hfloor (max 0 (now - now)) (le_max_left 0 (now - now))
              split at ht <;> omega
      | none =>
          simp only [Option.some.injEq] at ht
          have := hfloor (max 0 (now - now)) (le_max_left 0 (now - now))
          split at ht <;> omega
  | returnTok =>
      intro t ht
      obtain ⟨tok, last⟩ := h
      simp only [Redis.stepOp, returnToken, Option.some.injEq] at ht
      cases tok with
      | some t0 =>
          obtain ⟨ht0, ht1⟩ := hh t0 rfl
          simp only [Option.getD_some] at ht
          omega
      | none =>
          simp only [Option.getD_none] at ht
          omega
  | reset now =>
      intro t ht
      simp only [Redis.stepOp, resetClient, Option.some.injEq] at ht
      omega

theorem Inv.runHash {cap : ℤ} {rate itv : ℚ} {h : Hash} (ops : List Op)
    (hcap : 0 ≤ cap) (hrate : 0 ≤ rate) (hh : Inv cap h) :
    Inv cap (runOps cap rate itv h ops) := by
  induction ops generalizing h with
  | nil => exact hh
  | cons op rest ih => exact ih (hh.stepHash op hcap hrate)

end Redis

namespace LB

/-- The refill side effect touches only `currentCapacity` and `lastRefill`:
capacity, queue and total queued cost are preserved. -/
theorem refill_fields (st : State) (now : ℚ) :
    (refill st now).capacity = st.capacity
    ∧ (refill st now).queue = st.queue
    ∧ (refill st now).totalCost = st.totalCost := by
  refine ⟨?_, ?_, ?_⟩ <;>
    · unfold refill
      split
      · dsimp only
        split <;> rfl
      · rfl

/-- A `throttle` call throws the overflow error exactly when the total
queued cost plus the new cost exceeds the capacity at the moment of the
call. -/
theorem throttle_throws_iff (st : State) (cost now : ℚ) :
    (throttle st cost now).2 = true ↔ st.capacity < st.totalCost + cost := by
  unfold throttle
  dsimp only
  rcases (refill_fields st now) with ⟨hcap, -, -⟩
  rw [hcap]
  split
  · rename_i hc
    simp [hc]
  · rename_i hc
    simp [hc]

end LB

/-- C1: the fixed-window limiter admits a request exactly when the
post-increment hit count satisfies `count <= limit` and rejects exactly when
`count > limit`; for `limit = 3`, `windowMs = 1000`, three calls within one
window are admitted, the fourth within the same window is rejected with
`remaining = 0`, and a call issued after the window has elapsed resets the
count to 1 and is admitted. -/
theorem C1_fixed_window_boundary_and_scenario :
    (∀ (windowMs : ℕ) (m : MemFW.Clients) (key : String) (now : ℕ) (limit : ℤ),
      (@MW.fixedWindow Unit false limit
          (Except.ok (MemFW.increment windowMs m key now).1)).isAdmitted = true
        ↔ (MemFW.increment windowMs m key now).1.totalHits ≤ limit)
    ∧
    (MemFW.incrementN 1000 MemFW.Clients.empty "a" [0, 100, 200, 300, 1500]).1.map
        (fun c => @MW.fixedWindow Unit false 3 (Except.ok c))
      = [.admitted ⟨3, 1, 2, 1000⟩, .admitted ⟨3, 2, 1, 1000⟩,
         .admitted ⟨3, 3, 0, 1000⟩, .reject ⟨3, 4, 0, 1000⟩,
         .admitted ⟨3, 1, 2, 2000⟩] := by
  constructor
  · intro windowMs m key now limit
    simp only [MW.fixedWindow]
    split <;> simp [MW.Outcome.isAdmitted] <;> omega
  · decide

/-- C2: divergence between the claim and the code at capacity 5 on a fresh
key with five immediate calls.  The store returns the post-consumption count
(4, 3, 2, 1, 0) and the middleware rejects when that count is 0, so the
fifth call — whose pre-consumption count is 1 > 0 and which does consume a
token (the atomic script's own `canConsume` flag is true, but the wrapper
discards it) — is rejected: only four of the five calls are admitted, while
the claim says all five admit and the sixth is the first rejection. -/
theorem C2_fifth_call_consumes_but_is_rejected :
    ((MemTB.incrementN 5 1 1000 MemTB.ClientMap.empty "a"
        [0, 0, 0, 0, 0]).1.map MemTB.Info.totalHits = [4, 3, 2, 1, 0])
    ∧ ((MemTB.incrementN 5 1 1000 MemTB.ClientMap.empty "a"
        [0, 0, 0, 0, 0]).1.map
          (fun r => (@MW.tokenBucket Unit false 5 (Except.ok r)).isAdmitted)
        = [true, true, true, true, false])
    ∧ ((MemTB.incrementN 5 1 1000 MemTB.ClientMap.empty "a"
        [0, 0, 0, 0]).2 "a" = some ⟨1, 0⟩)
    ∧ (Redis.consumeToken 5 1 1000 ⟨some 1, some 0⟩ 0).2.canConsume = true
    ∧ (Redis.consumeToken 5 1 1000 ⟨some 1, some 0⟩ 0).2.newTokens = 0 := by
  refine ⟨?_, ?_, ?_, ?_, ?_⟩
  · simp [MemTB.incrementN, MemTB.increment, MemTB.getClient,
      MemTB.ClientMap.empty, MemTB.ClientMap.set, MemTB.refillTokens_now]
  · simp [MemTB.incrementN, MemTB.increment, MemTB.getClient,
      MemTB.ClientMap.empty, MemTB.ClientMap.set, MemTB.refillTokens_now,
      MW.tokenBucket, MW.Outcome.isAdmitted]
  · simp [MemTB.incrementN, MemTB.increment, MemTB.getClient,
      MemTB.ClientMap.empty, MemTB.ClientMap.set, MemTB.refillTokens_now]
  · norm_num [Redis.consumeToken]
  · norm_num [Redis.consumeToken]

/-- C3: for every finite sequence of store operations on a key of a
token-bucket store, the stored token level stays within `[0, capacity]`
after every operation (every intermediate state is the run of a prefix); in
particular the add-back `decrement` never raises the level above the
capacity, in the in-memory store and in the atomic-script store (whose
`RETURN_TOKEN` script caps at the capacity unconditionally). -/
theorem C3_token_level_invariant (cap : ℤ) (rate itv : ℚ)
    (hcap : 0 ≤ cap) (hrate : 0 ≤ rate) :
    (∀ ops : List MemTB.Op,
      MemTB.Inv cap (MemTB.runOps cap rate itv MemTB.ClientMap.empty ops))
    ∧ (∀ ops : List Redis.Op,
        Redis.Inv cap (Redis.runOps cap rate itv Redis.Hash.empty ops))
    ∧ (∀ h : Redis.Hash,
        (Redis.returnToken cap h).tokens
            = some (min (h.tokens.getD 0 + 1) cap)
          ∧ min (h.tokens.getD 0 + 1) cap ≤ cap) :=
  ⟨fun ops => MemTB.Inv.runMap ops hcap (MemTB.Inv.emptyMap cap),
   fun ops => Redis.Inv.runHash ops hcap hrate (Redis.Inv.emptyHash cap),
   fun h => ⟨rfl, min_le_right _ _⟩⟩

/-- Witness for C3 at capacity 5, refill rate 1 token/second. -/
theorem C3_witness :
    MemTB.Inv 5 (MemTB.runOps 5 1 1000 MemTB.ClientMap.empty
      [.increment "a" 0, .decrement "a" 5, .decrement "a" 10, .get "a" 20])
    ∧ Redis.Inv 5 (Redis.runOps 5 1 1000 Redis.Hash.empty
        [.consume 0, .returnTok, .returnTok]) :=
  ⟨(C3_token_level_invariant 5 1 1000 (by decide) (by decide)).1 _,
   (C3_token_level_invariant 5 1 1000 (by decide) (by decide)).2.1 _⟩

/-- C4 counterexample: with `refillRate = 1` token/second, a bucket last
refilled at time 0 and consumed at time 500 has `tokensToAdd = 0`; the
in-memory backend accordingly leaves `lastRefillTime` at 0, but the
`CONSUME_TOKEN` script of the atomic backend still overwrites
`lastRefillTime` with 500 — refuting the claim for that backend. -/
theorem C4_counterexample_lua_always_updates_lastRefill :
    MemTB.tokensToAdd 1 ⟨3, 0⟩ 500 = 0
    ∧ (Redis.consumeToken 5 1 1000 ⟨some 3, some 0⟩ 500).1.lastRefillTime
        = some 500
    ∧ MemTB.refillTokens 5 1 ⟨3, 0⟩ 500 = ⟨3, 0⟩
    ∧ (some (500 : ℤ) : Option ℤ) ≠ some 0 := by
  refine ⟨?_, rfl, ?_, by simp⟩
  · norm_num [MemTB.tokensToAdd]
  · norm_num [MemTB.refillTokens, MemTB.tokensToAdd]

/-- C4 amended: the in-memory consume step follows the claimed refill
arithmetic exactly — `tokensToAdd = floor(elapsed/1000 * refillRate)`, the
level becomes `min(level + tokensToAdd, capacity)` and `lastRefillAt`
advances only when `tokensToAdd > 0` — but the atomic-script backend
unconditionally sets `lastRefillAt = now` on every consume, even when
`tokensToAdd = 0`. -/
theorem C4_amended_refill_update_policy :
    (∀ (cap : ℤ) (rate : ℚ) (c : MemTB.Client) (now : ℤ),
      MemTB.refillTokens cap rate c now
        = if 0 < MemTB.tokensToAdd rate c now
          then ⟨min (c.tokens + MemTB.tokensToAdd rate c now) cap, now⟩
          else c)
    ∧ (∀ (cap : ℤ) (rate itv : ℚ) (h : Redis.Hash) (now : ℤ),
        (Redis.consumeToken cap rate itv h now).1.lastRefillTime
          = some now) := by
  refine ⟨fun cap rate c now => rfl, fun cap rate itv h now => ?_⟩
  obtain ⟨t, l⟩ := h
  cases t <;> cases l <;> rfl

/-- C6 counterexample: the in-memory fixed-window store's `get` does not
apply window-expiry arithmetic.  After one hit at time 0 (window resets at
1000), the window has long expired at time 5000 — `increment` at 5000 starts
a new window with count 1 — yet `get` still returns the stale record of the
expired window; `get` does not even consult the current time. -/
theorem C6_counterexample_fw_get_returns_stale :
    MemFW.get (MemFW.increment 1000 MemFW.Clients.empty "k" 0).2 "k"
      = some ⟨1, 1000⟩
    ∧ (1000 : ℕ) ≤ 5000
    ∧ (MemFW.increment 1000 (MemFW.increment 1000 MemFW.Clients.empty "k" 0).2
        "k" 5000).1 = ⟨1, 6000⟩ := by
  decide

/-- C6 amended: the in-memory token-bucket `get` applies the pending refill
before returning, but the in-memory fixed-window `get` returns the stored
record unchanged (a stale, expired window is returned as-is until the
periodic sweep clears it), and the networked store's `get` is a raw field
read without refill arithmetic. -/
theorem C6_amended_get_freshness_per_backend :
    (∀ (cap : ℤ) (rate itv : ℚ) (m : MemTB.ClientMap) (key : String) (now : ℤ),
      (MemTB.get cap rate itv m key now).1.totalHits
        = (MemTB.refillTokens cap rate (MemTB.getClient cap m key now).1
            now).tokens)
    ∧ (∀ (m : MemFW.Clients) (key : String), MemFW.get m key = m key)
    ∧ (∀ (itv : ℚ) (t l now : ℤ),
        Redis.get itv ⟨some t, some l⟩ now = some ⟨t, (l : ℚ) + itv⟩) := by
  refine ⟨fun _ _ _ _ _ _ => rfl, fun _ _ => rfl, fun itv t l now => ?_⟩
  simp [Redis.get, Redis.Hash.empty]

/-- C7: whenever the store call of a middleware throws, the outcome is
exactly fail-open (when `passOnStoreError` is set) or propagation of the
error; the request is never silently dropped and the capacity-exceeded
rejection path is never taken on a store error.  This holds for the
token-bucket, fixed-window and leaky-bucket middlewares. -/
theorem C7_store_error_fail_open_or_propagate :
    ∀ (ε : Type) (e : ε) (limit cap : ℤ) (leakRate : ℚ) (now : ℤ) (pass : Bool),
      (MW.tokenBucket pass limit (.error (e : ε))
          = if pass then .failOpen else .propagate e)
      ∧ (MW.fixedWindow pass limit (.error (e : ε))
          = if pass then .failOpen else .propagate e)
      ∧ (MW.leakyBucket pass cap leakRate now (.error (e : ε))
          = if pass then .failOpen else .propagate e)
      ∧ (∀ i : MW.RLInfo ℚ,
          MW.tokenBucket pass limit (.error (e : ε)) ≠ .reject i
            ∧ MW.tokenBucket pass limit (.error (e : ε)) ≠ .admitted i
            ∧ MW.leakyBucket pass cap leakRate now (.error (e : ε))
                ≠ .reject i
            ∧ MW.leakyBucket pass cap leakRate now (.error (e : ε))
                ≠ .admitted i)
      ∧ (∀ i : MW.RLInfo ℕ,
          MW.fixedWindow pass limit (.error (e : ε)) ≠ .reject i
            ∧ MW.fixedWindow pass limit (.error (e : ε)) ≠ .admitted i) := by
  intro ε e limit cap leakRate now pass
  cases pass <;>
    simp [MW.tokenBucket, MW.fixedWindow, MW.leakyBucket]

/-- C8 counterexample: with `capacity = 5` and `interval = 10000`, six
immediate unit-cost `throttle` calls all succeed — the first five resolve
synchronously (paying down the current capacity), the sixth is enqueued
pending the release timer — so the sixth item is *not* rejected, contrary
to the claim. -/
theorem C8_counterexample_sixth_enqueue_not_rejected :
    (LB.throttleN (LB.State.make 5 10000) [1, 1, 1, 1, 1, 1] 0).2
      = [false, false, false, false, false, false]
    ∧ (LB.throttleN (LB.State.make 5 10000) [1, 1, 1, 1, 1, 1] 0).1.queue
      = [1] := by
  constructor <;>
    norm_num [LB.throttleN, LB.throttle, LB.startTimer, LB.refill, LB.pay,
      LB.State.make]

/-- C8 amended: an enqueue whose queued cost already exceeds the capacity
is synchronously rejected without mutating the queue or the total queued
cost, and in general a `throttle` call throws exactly when
`totalCost + cost > capacity` at the moment of the call; with
`capacity = 5` and immediate unit costs the first ten calls are accepted
(the first five resolving instantly, so the sixth is merely enqueued) and
the eleventh is the first rejected call. -/
theorem C8_amended_overflow_boundary (st : LB.State) (cost now : ℚ)
    (h1 : st.capacity < st.totalCost) (h2 : 0 ≤ cost) :
    (LB.throttle st cost now).2 = true
    ∧ (LB.throttle st cost now).1.queue = st.queue
    ∧ (LB.throttle st cost now).1.totalCost = st.totalCost
    ∧ (∀ (s : LB.State) (c n : ℚ),
        (LB.throttle s c n).2 = true ↔ s.capacity < s.totalCost + c)
    ∧ (LB.throttleN (LB.State.make 5 10000)
          [1, 1, 1, 1, 1, 1, 1, 1, 1, 1, 1] 0).2
        = [false, false, false, false, false, false, false, false, false,
           false, true] := by
  have hover : st.capacity < st.totalCost + cost :=
    lt_of_lt_of_le h1 (le_add_of_nonneg_right h2)
  have hthrow : LB.throttle st cost now = (LB.refill st now, true) := by
    unfold LB.throttle
    rcases (LB.refill_fields st now) with ⟨hcap, -, -⟩
    rw [if_pos (by rw [hcap]; exact hover)]
  refine ⟨?_, ?_, ?_, LB.throttle_throws_iff, ?_⟩
  · rw [hthrow]
  · rw [hthrow]
    exact (LB.refill_fields st now).2.1
  · rw [hthrow]
    exact (LB.refill_fields st now).2.2
  · norm_num [LB.throttleN, LB.throttle, LB.startTimer, LB.refill, LB.pay,
      LB.State.make]

/-- Witness for C8 at a state whose queued cost 6 already exceeds the
capacity 5. -/
theorem C8_witness :
    (LB.throttle ⟨6, 5, 0, some 0, [1], true, 1⟩ 1 0).2 = true
    ∧ (LB.throttle ⟨6, 5, 0, some 0, [1], true, 1⟩ 1 0).1.queue = [1] :=
  ⟨(C8_amended_overflow_boundary ⟨6, 5, 0, some 0, [1], true, 1⟩ 1 0
      (by decide) (by decide)).1,
   (C8_amended_overflow_boundary ⟨6, 5, 0, some 0, [1], true, 1⟩ 1 0
      (by decide) (by decide)).2.1⟩

/-- C9 counterexample: on the atomic-script backend, `resetKey` followed by
`get` does not return the same result as `get` on a never-seen key.  A
never-seen key yields `undefined`, but `RESET_CLIENT` writes a full bucket,
so the subsequent `get` returns a record. -/
theorem C9_counterexample_redis_reset_differs_from_fresh :
    Redis.get 1000 Redis.Hash.empty 0 = none
    ∧ Redis.get 1000 (Redis.resetClient 5 Redis.Hash.empty 0) 0
        = some ⟨5, 1000⟩
    ∧ (some (⟨5, 1000⟩ : MemTB.Info) : Option MemTB.Info) ≠ none := by
  refine ⟨rfl, ?_, by simp⟩
  simp [Redis.get, Redis.resetClient, Redis.Hash.empty]

/-- C9 amended: on the in-memory token-bucket and fixed-window backends,
`resetKey` followed by `get` returns exactly the never-seen result (a full
fresh bucket, resp. `undefined`); on the atomic-script backend `resetKey`
forces the stored bucket to full capacity, so the subsequent `get` returns
a full bucket (full capacity, zero usage) rather than `undefined`. -/
theorem C9_amended_reset_then_get :
    (∀ (cap : ℤ) (rate itv : ℚ) (m : MemTB.ClientMap) (key : String) (now : ℤ),
      (MemTB.get cap rate itv (MemTB.resetKey m key) key now).1
        = (MemTB.get cap rate itv MemTB.ClientMap.empty key now).1
      ∧ (MemTB.get cap rate itv (MemTB.resetKey m key) key now).1.totalHits
          = cap)
    ∧ (∀ (m : MemFW.Clients) (key : String),
        MemFW.get (MemFW.resetKey m key) key
          = MemFW.get MemFW.Clients.empty key)
    ∧ (∀ (cap : ℤ) (itv : ℚ) (h : Redis.Hash) (now now2 : ℤ),
        Redis.get itv (Redis.resetClient cap h now) now2
          = some ⟨cap, (now : ℚ) + itv⟩) := by
  refine ⟨fun cap rate itv m key now => ?_, fun m key => ?_, ?_⟩
  · constructor <;>
      simp [MemTB.get, MemTB.getClient, MemTB.resetKey, MemTB.ClientMap.del,
        MemTB.ClientMap.empty, MemTB.refillTokens_now]
  · simp [MemFW.get, MemFW.resetKey, MemFW.Clients.empty]
  · intro cap itv h now now2
    simp [Redis.get, Redis.resetClient, Redis.Hash.empty]

/-- C10: on the in-memory token-bucket store, `get` on a never-seen key does
not return `undefined`: it creates and stores a bucket with
`tokens = bucketCapacity` and `lastRefillTime = now`, reports
`totalHits = bucketCapacity`, and afterwards the key is present in the
client map. -/
theorem C10_memtb_get_creates_unknown_key (cap : ℤ) (rate itv : ℚ)
    (m : MemTB.ClientMap) (key : String) (now : ℤ)
    (h : m key = none) :
    (MemTB.get cap rate itv m key now).1.totalHits = cap
    ∧ (MemTB.get cap rate itv m key now).2 key = some ⟨cap, now⟩ := by
  simp [MemTB.get, MemTB.getClient, h, MemTB.ClientMap.set,
    MemTB.refillTokens_now]

/-- Witness for C10 at capacity 5, a fresh map and time 0. -/
theorem C10_witness :
    (MemTB.get 5 1 1000 MemTB.ClientMap.empty "a" 0).1.totalHits = 5
    ∧ (MemTB.get 5 1 1000 MemTB.ClientMap.empty "a" 0).2 "a" = some ⟨5, 0⟩ :=
  C10_memtb_get_creates_unknown_key 5 1 1000 MemTB.ClientMap.empty "a" 0 rfl
